import Mathlib

/-!
Verification development for the site-scraper service (src/app.py).

The Python source is shallowly embedded here:

* Python strings are `String`, manipulated through their character lists
  (`String.data`), with helper functions mirroring the Python string methods
  used by the source (`strip`, `rstrip('/')`, `lower`, `upper`, slicing,
  `replace`, `in`, `startswith`, `join`).
* `urllib.parse.urlparse` is modelled by `pyUrlparse` (scheme / netloc /
  path / query / fragment splitting, as performed by CPython's `urlsplit`;
  the rarely used `params` component, split only by `urlparse` at a `;` in
  the last path segment, is not modelled and `;` is excluded from the
  well-formedness predicate used in theorems about well-formed URLs).
* The HTTP transport (`requests.Session.get`) and the HTML parser
  (BeautifulSoup) are external collaborators; they are modelled by an
  environment `Env` containing a fetch oracle `String → Option Response`
  (`none` = any raised exception: DNS/connection/timeout/malformed
  response), an abstract wall-clock timeout flag per loop iteration, and an
  abstract `urljoin` for ordinary relative hrefs.  A parsed document `Doc`
  carries exactly the fields the source reads from the soup: the `href`
  attributes of its anchors, the optional `<title>` string, the optional
  meta-description content, the raw texts of its `h1`/`h2`/`h3` headings,
  and the visible body text after the source's `decompose` pass.
* Exceptions swallowed by the source's `try/except` blocks appear as
  `Option`: `scrape_page` returns `none` exactly where the Python code
  returns `(None, set())` (note the source pairs a `None` page with an
  empty link set at every such return site).
-/

/-- Characters of a string. -/
def chars (s : String) : List Char := s.data

/-- Builds a string back from characters. -/
def ofChars (l : List Char) : String := String.mk l

/-- Python `str.startswith`. -/
def strStarts (s pat : String) : Bool := pat.data.isPrefixOf s.data

/-- Python `pat in s` (substring test), used for `'text/html' not in content_type`. -/
def strHasSub (s pat : String) : Bool := go pat.data s.data
where
  go (p : List Char) : List Char → Bool
  | [] => p.isEmpty
  | c :: rest => p.isPrefixOf (c :: rest) || go p rest

/-- Python whitespace test for `str.strip`. -/
def isWs (c : Char) : Bool := c = ' ' || c = '\t' || c = '\n' || c = '\r' || c = '\x0b' || c = '\x0c'

/-- Python `str.strip()` (no argument: strips whitespace at both ends). -/
def pyStrip (s : String) : String :=
  ofChars (((s.data.dropWhile isWs).reverse.dropWhile isWs).reverse)

/-- Python `str.rstrip('/')` on the character list. -/
def rstripSlashL (l : List Char) : List Char := (l.reverse.dropWhile (· = '/')).reverse

/-- Python `str.rstrip('/')`. -/
def pyRstripSlash (s : String) : String := ofChars (rstripSlashL s.data)

/-- Python `str.lower()` (the source only ever feeds it ASCII-relevant data). -/
def pyLower (s : String) : String := ofChars (s.data.map Char.toLower)

/-- Python `str.upper()`. -/
def pyUpper (s : String) : String := ofChars (s.data.map Char.toUpper)

/-- Python slicing `s[:n]`. -/
def pyTake (n : Nat) (s : String) : String := ofChars (s.data.take n)

/-- Python `str.endswith`. -/
def strEnds (s pat : String) : Bool := pat.data.isSuffixOf s.data

/-- Python `"\n".join(sections)`. -/
def pyJoinNl : List String → String
  | [] => ""
  | [s] => s
  | s :: rest => s ++ "\n" ++ pyJoinNl rest

/-- Auxiliary for `pyDedup`: drops the elements already seen. -/
def pyDedupAux (seen : List String) : List String → List String
  | [] => []
  | a :: l => if a ∈ seen then pyDedupAux seen l else a :: pyDedupAux (a :: seen) l

/-- Python `list(dict.fromkeys(l))`: removes duplicates keeping the first occurrence. -/
def pyDedup (l : List String) : List String := pyDedupAux [] l

/-- Auxiliary for `pyReplace`, structurally recursive on a fuel bound. -/
def pyReplaceAux (pat rep : List Char) : Nat → List Char → List Char
  | _, [] => []
  | 0, l => l
  | fuel + 1, c :: rest =>
    if pat ≠ [] ∧ pat.isPrefixOf (c :: rest) then
      rep ++ pyReplaceAux pat rep fuel ((c :: rest).drop pat.length)
    else
      c :: pyReplaceAux pat rep fuel rest

/-- Python `s.replace(pat, rep)` for a nonempty pattern (left-to-right,
non-overlapping); the fuel `s.length` suffices since each step consumes at
least one character. -/
def pyReplace (s pat rep : String) : String :=
  ofChars (pyReplaceAux pat.data rep.data s.data.length s.data)

/-- Length bound for `dropWhile`, used for termination of `collapseWsGo`. -/
theorem dropWhile_len_le {α : Type} (p : α → Bool) (l : List α) :
    (l.dropWhile p).length ≤ l.length := by
  induction l with
  | nil => simp
  | cons a l ih =>
    simp only [List.dropWhile]
    split
    · exact Nat.le_succ_of_le ih
    · simp

/-- Auxiliary for `collapseWs`, structurally recursive on a fuel bound
(each step consumes at least one character, so fuel `l.length` suffices). -/
def collapseWsGo : Nat → List Char → List Char
  | _, [] => []
  | 0, l => l
  | fuel + 1, c :: rest =>
    if isWs c then
      ' ' :: collapseWsGo fuel (rest.dropWhile isWs)
    else
      c :: collapseWsGo fuel rest

/-- Python `re.sub(r'\s+', ' ', s)`: collapses whitespace runs to a single space. -/
def collapseWs (s : String) : String := ofChars (collapseWsGo s.data.length s.data)

/-- Result of `urllib.parse.urlparse` restricted to the components the source
reads (`params` is not modelled, see the module comment). -/
structure UrlParts where
  scheme : String
  netloc : String
  path : String
  query : String
  fragment : String
deriving Repr, DecidableEq

/-- Characters allowed in a URL scheme by CPython's `urlsplit`. -/
def schemeChar (c : Char) : Bool := c.isAlpha || c.isDigit || c = '+' || c = '-' || c = '.'

/-- Scheme splitting of CPython `urlsplit`: a leading `scheme:` is
recognised when the text before the first `:` is a nonempty run of scheme
characters starting with a letter, and is lowercased. -/
def pySplitScheme (cs : List Char) : List Char × List Char :=
  let pre := cs.takeWhile (fun c => !(c == ':'))
  if pre.length < cs.length ∧ pre ≠ [] ∧ pre.headI.isAlpha ∧ pre.all schemeChar then
    (pre.map Char.toLower, cs.drop (pre.length + 1))
  else
    ([], cs)

/-- Netloc characters extend to the next `/`, `?` or `#`. -/
def netlocChar (c : Char) : Bool := !(c == '/') && !(c == '?') && !(c == '#')

/-- Netloc splitting of CPython `urlsplit`: a netloc follows a leading `//`. -/
def pySplitNetloc (rest : List Char) : List Char × List Char :=
  match rest with
  | '/' :: '/' :: r =>
    let nl := r.takeWhile netlocChar
    (nl, r.drop nl.length)
  | _ => ([], rest)

/-- Python `s.split(d, 1)` behaviour used by `urlsplit` for `#` and `?`:
the part before the first `d`, and the part after it (empty when `d` does
not occur). -/
def pySplitOn (d : Char) (l : List Char) : List Char × List Char :=
  let bf := l.takeWhile (fun c => !(c == d))
  (bf, l.drop (bf.length + 1))

/-- Model of `urllib.parse.urlparse` restricted to the components the
source reads: scheme, then netloc after a leading `//`, then the fragment
split at the first `#`, then the query at the first `?`; the remainder is
the path. -/
def pyUrlparse (url : String) : UrlParts :=
  let sr := pySplitScheme url.data
  let nr := pySplitNetloc sr.2
  let fr := pySplitOn '#' nr.2
  let qr := pySplitOn '?' fr.1
  ⟨ofChars sr.1, ofChars nr.1, ofChars qr.1, ofChars qr.2, ofChars fr.2⟩

/-- Host of a URL as the crawler sees it: the netloc component. -/
def host (u : String) : String := (pyUrlparse u).netloc

/-- Configuration held by a `SiteScraper` instance (`__init__`): `base_url`
is the constructor argument with trailing slashes stripped, while `domain`
and `scheme` are parsed from the unstripped argument; `max_pages` is kept as
an integer (the surrounding route clamps it only from above). -/
structure Cfg where
  baseUrl : String
  domain : String
  scheme : String
  maxPages : Int

/-- Builds the scraper configuration from the constructor arguments. -/
def mkCfg (base : String) (maxPages : Int) : Cfg :=
  let parsed := pyUrlparse base
  { baseUrl := pyRstripSlash base
    domain := parsed.netloc
    scheme := if parsed.scheme = "" then "https" else parsed.scheme
    maxPages := maxPages }

/-- Model of `SiteScraper.normalize_url`: keep scheme, netloc and the path
with trailing slashes stripped (an emptied path becomes `/`); the query and
fragment are dropped. -/
def normalize_url (url : String) : String :=
  let parsed := pyUrlparse url
  let path0 := pyRstripSlash parsed.path
  let path := if path0 = "" then "/" else path0
  parsed.scheme ++ "://" ++ parsed.netloc ++ path

/-- Extensions skipped by `SiteScraper.is_valid_url`. -/
def skipExt : List String :=
  [".pdf", ".jpg", ".jpeg", ".png", ".gif", ".svg", ".ico",
   ".css", ".js", ".xml", ".json", ".zip", ".mp3", ".mp4"]

/-- Model of `SiteScraper.is_valid_url`: rejects a URL whose netloc is
nonempty and differs from the scraper's domain, and any URL whose lowercased
path ends with a skipped extension.  (The source wraps this in `try/except`;
the model of `urlparse` is total, so the `except` branch has no counterpart.) -/
def is_valid_url (domain : String) (url : String) : Bool :=
  let parsed := pyUrlparse url
  if parsed.netloc ≠ "" ∧ parsed.netloc ≠ domain then
    false
  else if (skipExt.map (fun ext => strEnds (pyLower parsed.path) ext)).any id then
    false
  else
    true

/-- Well-formed absolute web URL: an `http`/`https` scheme, a nonempty host
free of delimiter and whitespace characters, and a path that is empty or
starts with `/` and contains no query/fragment/params delimiters. -/
def WellFormedUrl (u : String) : Prop :=
  ∃ sch n p : String,
    (sch = "http" ∨ sch = "https") ∧
    n ≠ "" ∧
    (∀ c ∈ n.data, c ≠ ':' ∧ c ≠ '/' ∧ c ≠ '?' ∧ c ≠ '#' ∧ isWs c = false) ∧
    (p = "" ∨ p.data.head? = some '/') ∧
    (∀ c ∈ p.data, c ≠ '?' ∧ c ≠ '#' ∧ c ≠ ';' ∧ c ≠ ':' ∧ isWs c = false) ∧
    u = sch ++ "://" ++ n ++ p

/-- Parsed HTML document, carrying exactly the fields the source reads from
the BeautifulSoup object: the `href` attribute of each `<a href=...>` anchor
in document order, the optional `<title>` string, the optional
`<meta name="description">` `content` attribute, the raw text of each
`h1`/`h2`/`h3` heading (the source applies `get_text(strip=True)`, modelled
as trimming, to each), and the visible body text remaining after the
source's `decompose` pass over scripts, styles, nav, footer, header, aside,
noscript, iframe and svg elements.  Anchors are collected before that pass,
matching the source's order of operations. -/
structure Doc where
  anchors : List String
  titleStr : Option String
  metaDesc : Option String
  h1s : List String
  h2s : List String
  h3s : List String
  bodyText : String

/-- Heading texts of a document at a given level. -/
def Doc.hs (d : Doc) : Nat → List String
  | 1 => d.h1s
  | 2 => d.h2s
  | 3 => d.h3s
  | _ => []

/-- HTTP response as the source consumes it: the `Content-Type` header
(defaulted to `''` when absent) and the parsed document. -/
structure Response where
  contentType : String
  doc : Doc

/-- External collaborators of the crawler: the transport (`none` models any
exception raised during the fetch/parse of one URL), the wall-clock timeout
flag sampled at the top of each loop iteration, and `urllib.parse.urljoin`
for ordinary relative hrefs. -/
structure Env where
  fetch : String → Option Response
  timedOut : Nat → Bool
  urljoin : String → String → String

/-- A scraped page exactly as the source's result dictionary stores it. -/
structure Page where
  url : String
  title : String
  meta_description : String
  headers : List (String × List String)
  content : String
deriving DecidableEq

/-- Model of `SiteScraper.extract_links`: strips each href, skips empty,
fragment-only, `javascript:`, `mailto:` and `tel:` targets, makes the href
absolute (protocol-relative, root-relative, or via `urljoin`), normalizes it
and keeps it when `is_valid_url` accepts it.  The Python `set` of links is
modelled as the first-occurrence-deduplicated list. -/
def skipHref (href : String) : Bool :=
  href = "" || strStarts href "#" || strStarts href "javascript:" ||
    strStarts href "mailto:" || strStarts href "tel:"

/-- Absolutization of one href in `extract_links`: protocol-relative and
root-relative hrefs are completed from the scraper's scheme and domain,
other relative hrefs go through `urljoin`. -/
def absolutize (env : Env) (cfg : Cfg) (currentUrl href : String) : String :=
  if strStarts href "//" then cfg.scheme ++ ":" ++ href
  else if strStarts href "/" then cfg.scheme ++ "://" ++ cfg.domain ++ href
  else if ¬ (strStarts href "http://" ∨ strStarts href "https://") then
    env.urljoin currentUrl href
  else href

/-- Processing of one anchor in `extract_links`: strip, skip non-link
targets, absolutize, normalize, and keep the URL only when valid. -/
def linkCandidate (env : Env) (cfg : Cfg) (currentUrl raw : String) : Option String :=
  let href := pyStrip raw
  if skipHref href then none
  else
    let normalized := normalize_url (absolutize env cfg currentUrl href)
    if is_valid_url cfg.domain normalized then some normalized else none

def extract_links (env : Env) (cfg : Cfg) (doc : Doc) (currentUrl : String) : List String :=
  pyDedup (doc.anchors.filterMap (linkCandidate env cfg currentUrl))

/-- Model of the headings extraction in `SiteScraper.scrape_page`: for each
level 1–3, when the document has at least one heading at that level, the key
`h<i>` maps to the first 10 heading texts, each passed through
`get_text(strip=True)` (modelled as trimming). -/
def extractHeaders (doc : Doc) : List (String × List String) :=
  (if doc.h1s ≠ [] then [("h1", (doc.h1s.take 10).map pyStrip)] else []) ++
  (if doc.h2s ≠ [] then [("h2", (doc.h2s.take 10).map pyStrip)] else []) ++
  (if doc.h3s ≠ [] then [("h3", (doc.h3s.take 10).map pyStrip)] else [])

/-- Model of `SiteScraper.scrape_page`.  The source returns `(None, set())`
both when the fetch raises and when the content type is not HTML, and
`(page_dict, links)` otherwise; since a missing page is always paired with
an empty link set, the result is an `Option (Page × List String)` with
`none` for the two failure exits. -/
def scrape_page (env : Env) (cfg : Cfg) (url : String) : Option (Page × List String) :=
  match env.fetch url with
  | none => none
  | some r =>
    if ¬ strHasSub r.contentType "text/html" then
      none
    else
      let links := extract_links env cfg r.doc url
      let title := match r.doc.titleStr with
        | some t => pyStrip t
        | none => ""
      let metaDesc := (r.doc.metaDesc).getD ""
      some ({ url := url
              title := title
              meta_description := metaDesc
              headers := extractHeaders r.doc
              content := pyTake 10000 (collapseWs r.doc.bodyText) }, links)

/-- Frontier merge step of the crawl loop: for each discovered link not yet
in `visited`, append it to `visited` and to the pending queue. -/
def mergeLinks (visited queue : List String) : List String → List String × List String
  | [] => (visited, queue)
  | l :: ls =>
    if l ∈ visited then mergeLinks visited queue ls
    else mergeLinks (visited ++ [l]) (queue ++ [l]) ls

/-- Output of the crawl loop: the accumulated pages, the visited set in
insertion order (the Python `set` is modelled as its append-only insertion
sequence), and the list of URLs for which a fetch was issued, in order. -/
structure CrawlOut where
  pages : List Page
  visited : List String
  fetched : List String

/-- Model of the `while` loop of `SiteScraper.crawl`: while the queue is
nonempty, fewer than `max_pages` pages have been collected and the timeout
flag is not set, pop the head of the queue, fetch and extract it, append the
page when one was produced, and merge the discovered links into the
frontier.  `iter` counts loop iterations so that the abstract wall clock can
be sampled; the inter-fetch politeness delay has no observable effect here. -/
def crawlLoop (env : Env) (cfg : Cfg) (iter : Nat) (visited queue : List String)
    (pages : List Page) (fetched : List String) : CrawlOut :=
  match queue with
  | [] => ⟨pages, visited, fetched⟩
  | url :: rest =>
    if h : (pages.length : Int) < cfg.maxPages ∧ env.timedOut iter = false then
      match scrape_page env cfg url with
      | none => crawlLoop env cfg (iter + 1) visited rest pages (fetched ++ [url])
      | some (p, links) =>
        crawlLoop env cfg (iter + 1) (mergeLinks visited rest links).1
          (mergeLinks visited rest links).2 (pages ++ [p]) (fetched ++ [url])
    else ⟨pages, visited, fetched⟩
termination_by ((cfg.maxPages - pages.length).toNat, queue.length)
decreasing_by
  · apply Prod.Lex.right
    simp
  · apply Prod.Lex.left
    simp only [List.length_append, List.length_cons, List.length_nil]
    omega

/-- Crawl result as the source's dictionary stores it (`scraped_at`, a wall
clock timestamp, is not modelled). -/
structure CrawlResult where
  domain : String
  url : String
  pages_count : Nat
  pages : List Page

/-- Model of `SiteScraper.crawl` including the constructor: seeds the
frontier with the normalized (slash-stripped) base URL, runs the loop, and
also reports the ghost `visited`/`fetched` logs. -/
def crawlAux (env : Env) (base : String) (maxPages : Int) : CrawlOut :=
  let cfg := mkCfg base maxPages
  let startUrl := normalize_url cfg.baseUrl
  crawlLoop env cfg 0 [startUrl] [startUrl] [] []

/-- Model of `SiteScraper.crawl`'s returned dictionary. -/
def crawl (env : Env) (base : String) (maxPages : Int) : CrawlResult :=
  let cfg := mkCfg base maxPages
  let out := crawlAux env base maxPages
  { domain := cfg.domain
    url := cfg.baseUrl
    pages_count := out.pages.length
    pages := out.pages }

/-- Clamp applied by the `/scrape` route: `min(int(arg), 50)` — an upper
clamp only, no lower clamp. -/
def clampMaxPages (n : Int) : Int := min n 50

/-- Python `page.get('headers', {}).get(k, [])` on a scraped page. -/
def pageH (p : Page) (k : String) : List String := (List.lookup k p.headers).getD []

/-- All level-1 heading texts gathered across the pages, in page order
(`h1_all` in `build_ai_content`). -/
def h1_all (pages : List Page) : List String := (pages.map (fun p => pageH p "h1")).flatten

/-- All level-2 heading texts gathered across the pages (`h2_all`). -/
def h2_all (pages : List Page) : List String := (pages.map (fun p => pageH p "h2")).flatten

/-- All level-3 heading texts gathered across the pages (`h3_all`). -/
def h3_all (pages : List Page) : List String := (pages.map (fun p => pageH p "h3")).flatten

/-- Nonempty page titles in page order (`page_titles`). -/
def page_titles (pages : List Page) : List String :=
  (pages.filter (fun p => p.title ≠ "")).map (fun p => p.title)

/-- Deduplicated level-1 headings capped at 10 (`h1_unique`). -/
def h1_unique (pages : List Page) : List String := (pyDedup (h1_all pages)).take 10

/-- Deduplicated level-2 headings capped at 15 (`h2_unique`). -/
def h2_unique (pages : List Page) : List String := (pyDedup (h2_all pages)).take 15

/-- Deduplicated level-3 headings capped at 10 (`h3_unique`). -/
def h3_unique (pages : List Page) : List String := (pyDedup (h3_all pages)).take 10

/-- Counterpart of the empty dict `{}` used for a missing homepage. -/
def emptyPage : Page :=
  { url := "", title := "", meta_description := "", headers := [], content := "" }

/-- The INTRO section of `build_ai_content` (one triple-quoted f-string). -/
def introSection (domain : String) (pages : List Page) : String :=
  "# WEBSITE INTELLIGENCE REPORT: " ++ pyUpper domain ++
  "\n> This document contains scraped content from " ++ domain ++
  " for GTM (Go-To-Market) analysis.\n> Use this data to understand: company positioning, messaging, value propositions, target audience, and product offerings.\n> Total pages analyzed: " ++
  toString pages.length ++ "\n"

/-- The CORE MESSAGING block: present only when `h1_unique` is nonempty,
one `- `-prefixed line per deduplicated level-1 heading, emitted verbatim. -/
def h1Sections (pages : List Page) : List String :=
  if h1_unique pages ≠ [] then
    ["## CORE MESSAGING (H1 Headlines)",
     "These are the main headlines - they reveal primary positioning and messaging:"] ++
    (h1_unique pages).map (fun h => "- " ++ h) ++ [""]
  else []

/-- The VALUE PROPOSITIONS block for `h2_unique`. -/
def h2Sections (pages : List Page) : List String :=
  if h2_unique pages ≠ [] then
    ["## VALUE PROPOSITIONS (H2 Subheadlines)",
     "Secondary headlines that explain benefits and features:"] ++
    (h2_unique pages).map (fun h => "- " ++ h) ++ [""]
  else []

/-- The KEY TOPICS block for `h3_unique`. -/
def h3Sections (pages : List Page) : List String :=
  if h3_unique pages ≠ [] then
    ["## KEY TOPICS (H3)"] ++ (h3_unique pages).map (fun h => "- " ++ h) ++ [""]
  else []

/-- The HOMEPAGE block: homepage body excerpt truncated to 4000 characters. -/
def homepageSections (pages : List Page) : List String :=
  let homepage := pages.headD emptyPage
  ["## HOMEPAGE CONTENT",
   "URL: " ++ homepage.url,
   "Title: " ++ homepage.title,
   "Meta Description: " ++ homepage.meta_description,
   "",
   "### Homepage Full Text:",
   pyTake 4000 homepage.content,
   ""]

/-- Header lines of the OTHER PAGES block. -/
def otherPagesHeader : List String :=
  ["## OTHER PAGES CONTENT",
   "Below is content from other key pages on the website:",
   ""]

/-- The `url_path` local of the other-pages loop. -/
def url_path (domain : String) (p : Page) : String :=
  let s := pyReplace (pyReplace p.url ("https://" ++ domain) "") ("http://" ++ domain) ""
  if s = "" then "/" else s

/-- One iteration of the other-pages loop: the page excerpt is the first
3000 characters of its content, a constant per-page truncation. -/
def otherPageSection (domain : String) (p : Page) : List String :=
  ["### PAGE: " ++ url_path domain p,
   "Title: " ++ p.title] ++
  (if p.meta_description ≠ "" then ["Description: " ++ p.meta_description] else []) ++
  ["", pyTake 3000 p.content, "", "---", ""]

/-- The OTHER PAGES block: one section per page after the homepage — every
page of `pages[1:]` contributes, with no cap on their number. -/
def otherPagesSections (domain : String) (pages : List Page) : List String :=
  ((pages.drop 1).map (otherPageSection domain)).flatten

/-- The SITE STRUCTURE block: first 30 nonempty page titles. -/
def structureSections (pages : List Page) : List String :=
  ["## SITE STRUCTURE", "All pages found on this website:"] ++
  ((page_titles pages).take 30).map (fun t => "- " ++ t)

/-- The full `sections` list of `build_ai_content` for a nonempty page list. -/
def sectionsOf (r : CrawlResult) : List String :=
  [introSection r.domain r.pages] ++
  h1Sections r.pages ++ h2Sections r.pages ++ h3Sections r.pages ++
  homepageSections r.pages ++ otherPagesHeader ++
  otherPagesSections r.domain r.pages ++ structureSections r.pages

/-- Model of `build_ai_content`: empty when there are no pages, otherwise
the newline join of the sections.  Note the function receives no maximum
size and applies no final truncation. -/
def build_ai_content (r : CrawlResult) : String :=
  match r.pages with
  | [] => ""
  | _ :: _ => pyJoinNl (sectionsOf r)

/-- Elements produced by `pyDedupAux` form a sublist of the input. -/
theorem pyDedupAux_sublist (l : List String) : ∀ seen, (pyDedupAux seen l).Sublist l := by
  induction l with
  | nil => intro seen; simp [pyDedupAux]
  | cons a l ih =>
    intro seen
    simp only [pyDedupAux]
    split
    · exact (ih seen).cons a
    · exact (ih (a :: seen)).cons₂ a

/-- The output of `pyDedupAux` has no duplicates and avoids `seen`. -/
theorem pyDedupAux_nodup (l : List String) :
    ∀ seen, (pyDedupAux seen l).Nodup ∧ ∀ x ∈ pyDedupAux seen l, x ∉ seen := by
  induction l with
  | nil => intro seen; simp [pyDedupAux]
  | cons a l ih =>
    intro seen
    simp only [pyDedupAux]
    split
    · exact ih seen
    · rename_i ha
      obtain ⟨hnd, hout⟩ := ih (a :: seen)
      refine ⟨List.nodup_cons.mpr ⟨fun hmem => ?_, hnd⟩, ?_⟩
      · exact (hout a hmem) (List.mem_cons_self a seen)
      · intro x hx
        rcases List.mem_cons.mp hx with rfl | hx'
        · exact ha
        · intro hxseen
          exact hout x hx' (List.mem_cons_of_mem a hxseen)

/-- Every input element appears in the output of `pyDedupAux` or in `seen`. -/
theorem pyDedupAux_complete (l : List String) :
    ∀ seen x, x ∈ l → x ∈ seen ∨ x ∈ pyDedupAux seen l := by
  induction l with
  | nil => intro seen x hx; cases hx
  | cons a l ih =>
    intro seen x hx
    simp only [pyDedupAux]
    rcases List.mem_cons.mp hx with rfl | hx'
    · split
      · rename_i ha; exact Or.inl ha
      · exact Or.inr (List.mem_cons_self _ _)
    · split
      · exact ih seen x hx'
      · rcases ih (a :: seen) x hx' with hs | ho
        · rcases List.mem_cons.mp hs with rfl | hs'
          · exact Or.inr (List.mem_cons_self _ _)
          · exact Or.inl hs'
        · exact Or.inr (List.mem_cons_of_mem _ ho)

/-- Specification of `mergeLinks`: the same fresh tail is appended to both
the visited list and the queue, taken from the links, without duplicates,
and disjoint from the previous visited list. -/
theorem mergeLinks_spec (ls : List String) : ∀ v q, ∃ t,
    (mergeLinks v q ls).1 = v ++ t ∧ (mergeLinks v q ls).2 = q ++ t ∧
    (∀ x ∈ t, x ∈ ls) ∧ t.Nodup ∧ (∀ x ∈ t, x ∉ v) := by
  induction ls with
  | nil => intro v q; exact ⟨[], by simp [mergeLinks]⟩
  | cons l ls ih =>
    intro v q
    simp only [mergeLinks]
    split
    · obtain ⟨t, h1, h2, h3, h4, h5⟩ := ih v q
      exact ⟨t, h1, h2, fun x hx => List.mem_cons_of_mem _ (h3 x hx), h4, h5⟩
    · rename_i hl
      obtain ⟨t, h1, h2, h3, h4, h5⟩ := ih (v ++ [l]) (q ++ [l])
      refine ⟨l :: t, ?_, ?_, ?_, ?_, ?_⟩
      · rw [h1, List.append_assoc]; rfl
      · rw [h2, List.append_assoc]; rfl
      · intro x hx
        rcases List.mem_cons.mp hx with rfl | hx'
        · exact List.mem_cons_self _ _
        · exact List.mem_cons_of_mem _ (h3 x hx')
      · refine List.nodup_cons.mpr ⟨fun hmem => ?_, h4⟩
        exact h5 l hmem (by simp)
      · intro x hx
        rcases List.mem_cons.mp hx with rfl | hx'
        · exact hl
        · intro hxv
          exact h5 x hx' (List.mem_append_left _ hxv)

/-- Every link returned by `extract_links` passed `is_valid_url`. -/
theorem extract_links_valid (env : Env) (cfg : Cfg) (doc : Doc) (cur : String) :
    ∀ l ∈ extract_links env cfg doc cur, is_valid_url cfg.domain l = true := by
  intro l hl
  have hl' := (pyDedupAux_sublist _ []).subset hl
  obtain ⟨raw, _, hraw⟩ := List.mem_filterMap.mp hl'
  unfold linkCandidate at hraw
  dsimp only at hraw
  split at hraw
  · cases hraw
  · split at hraw
    · rename_i hvalid
      cases hraw
      exact hvalid
    · cases hraw

/-- A successful `scrape_page` records the fetched URL as the page URL, and
every returned link passed `is_valid_url`. -/
theorem scrape_page_some (env : Env) (cfg : Cfg) (url : String) (p : Page)
    (links : List String) (h : scrape_page env cfg url = some (p, links)) :
    p.url = url ∧ ∀ l ∈ links, is_valid_url cfg.domain l = true := by
  unfold scrape_page at h
  split at h
  · cases h
  · rename_i r hr
    split at h
    · cases h
    · simp only [Option.some.injEq, Prod.mk.injEq] at h
      obtain ⟨hp, hlinks⟩ := h
      constructor
      · rw [← hp]
      · rw [← hlinks]
        exact extract_links_valid env cfg r.doc url

/-- Length invariant of the crawl loop: once the page count is within the
`max_pages` budget it stays within it, because a page is appended only under
the loop guard `len(pages) < max_pages`. -/
theorem crawlLoop_len (env : Env) (cfg : Cfg) :
    ∀ iter visited queue pages fetched,
    (pages.length : Int) ≤ cfg.maxPages →
    (((crawlLoop env cfg iter visited queue pages fetched).pages.length : Int)
      ≤ cfg.maxPages) := by
  intro iter visited queue pages fetched
  induction iter, visited, queue, pages, fetched using crawlLoop.induct env cfg with
  | case1 iter visited pages fetched =>
    intro h
    simpa [crawlLoop]
  | case2 iter visited pages fetched url rest hguard hscrape ih =>
    intro h
    rw [crawlLoop]
    simp only [hguard, hscrape, dif_pos]
    exact ih h
  | case3 iter visited pages fetched url rest hguard p links hscrape ih =>
    intro h
    rw [crawlLoop]
    simp only [hguard, hscrape, dif_pos]
    apply ih
    simp only [List.length_append, List.length_cons, List.length_nil]
    push_cast
    omega
  | case4 iter visited pages fetched url rest hguard =>
    intro h
    rw [crawlLoop]
    simp only [hguard, dif_neg, not_false_iff]
    exact h

/-- The visited list only grows: the loop's final visited list extends the
one it started from (URLs are only appended, never removed). -/
theorem crawlLoop_mono (env : Env) (cfg : Cfg) :
    ∀ iter visited queue pages fetched, ∃ t,
    (crawlLoop env cfg iter visited queue pages fetched).visited = visited ++ t := by
  intro iter visited queue pages fetched
  induction iter, visited, queue, pages, fetched using crawlLoop.induct env cfg with
  | case1 iter visited pages fetched =>
    exact ⟨[], by simp [crawlLoop]⟩
  | case2 iter visited pages fetched url rest hguard hscrape ih =>
    obtain ⟨t, ht⟩ := ih
    refine ⟨t, ?_⟩
    rw [crawlLoop]
    simp only [hguard, hscrape, dif_pos]
    exact ht
  | case3 iter visited pages fetched url rest hguard p links hscrape ih =>
    obtain ⟨t₂, ht₂⟩ := ih
    obtain ⟨t₁, h1, _, _, _, _⟩ := mergeLinks_spec links visited rest
    refine ⟨t₁ ++ t₂, ?_⟩
    rw [crawlLoop]
    simp only [hguard, hscrape, dif_pos, and_self, dite_eq_ite, if_true]
    rw [ht₂, h1, List.append_assoc]
  | case4 iter visited pages fetched url rest hguard =>
    refine ⟨[], ?_⟩
    rw [crawlLoop]
    simp only [hguard, dif_neg, not_false_iff, List.append_nil]

/-- Dedup invariant of the crawl loop: starting from a state where the
visited list, the queue and the fetch log have no duplicates, the queue and
the fetch log are contained in the visited list, and no queued URL was
already fetched, the final visited list and fetch log have no duplicates
and every fetched URL is in the visited list. -/
theorem crawlLoop_dedup (env : Env) (cfg : Cfg) :
    ∀ iter visited queue pages fetched,
    visited.Nodup → queue.Nodup → fetched.Nodup →
    (∀ u ∈ queue, u ∈ visited) → (∀ u ∈ fetched, u ∈ visited) →
    (∀ u ∈ queue, u ∉ fetched) →
    (crawlLoop env cfg iter visited queue pages fetched).visited.Nodup ∧
    (crawlLoop env cfg iter visited queue pages fetched).fetched.Nodup ∧
    (∀ u ∈ (crawlLoop env cfg iter visited queue pages fetched).fetched,
      u ∈ (crawlLoop env cfg iter visited queue pages fetched).visited) := by
  intro iter visited queue pages fetched
  induction iter, visited, queue, pages, fetched using crawlLoop.induct env cfg with
  | case1 iter visited pages fetched =>
    intro h1 _ h3 _ h5 _
    rw [crawlLoop]
    exact ⟨h1, h3, h5⟩
  | case2 iter visited pages fetched url rest hguard hscrape ih =>
    intro h1 h2 h3 h4 h5 h6
    rw [crawlLoop]
    simp only [hguard, hscrape, dif_pos]
    apply ih h1 (List.Nodup.of_cons h2)
    · rw [List.nodup_append]
      refine ⟨h3, List.nodup_singleton url, ?_⟩
      intro a ha hb
      rw [List.mem_singleton] at hb
      rw [hb] at ha
      exact h6 url (List.mem_cons_self _ _) ha
    · exact fun u hu => h4 u (List.mem_cons_of_mem _ hu)
    · intro u hu
      rcases List.mem_append.mp hu with hu' | hu'
      · exact h5 u hu'
      · rw [List.mem_singleton] at hu'
        subst hu'
        exact h4 u (List.mem_cons_self _ _)
    · intro u hu hmem
      rcases List.mem_append.mp hmem with hm | hm
      · exact h6 u (List.mem_cons_of_mem _ hu) hm
      · rw [List.mem_singleton] at hm
        subst hm
        exact (List.nodup_cons.mp h2).1 hu
  | case3 iter visited pages fetched url rest hguard p links hscrape ih =>
    intro h1 h2 h3 h4 h5 h6
    rw [crawlLoop]
    simp only [hguard, hscrape, dif_pos]
    obtain ⟨t, hv, hq, htl, htnd, htfresh⟩ := mergeLinks_spec links visited rest
    rw [hv, hq] at ih ⊢
    apply ih
    · rw [List.nodup_append]
      exact ⟨h1, htnd, fun a ha hb => htfresh a hb ha⟩
    · rw [List.nodup_append]
      refine ⟨List.Nodup.of_cons h2, htnd, ?_⟩
      intro a ha hb
      exact htfresh a hb (h4 a (List.mem_cons_of_mem _ ha))
    · rw [List.nodup_append]
      refine ⟨h3, List.nodup_singleton url, ?_⟩
      intro a ha hb
      rw [List.mem_singleton] at hb
      rw [hb] at ha
      exact h6 url (List.mem_cons_self _ _) ha
    · intro u hu
      rcases List.mem_append.mp hu with hu' | hu'
      · exact List.mem_append_left _ (h4 u (List.mem_cons_of_mem _ hu'))
      · exact List.mem_append_right _ hu'
    · intro u hu
      rcases List.mem_append.mp hu with hu' | hu'
      · exact List.mem_append_left _ (h5 u hu')
      · rw [List.mem_singleton] at hu'
        subst hu'
        exact List.mem_append_left _ (h4 u (List.mem_cons_self _ _))
    · intro u hu hmem
      rcases List.mem_append.mp hu with hu' | hu'
      · rcases List.mem_append.mp hmem with hm | hm
        · exact h6 u (List.mem_cons_of_mem _ hu') hm
        · rw [List.mem_singleton] at hm
          subst hm
          exact (List.nodup_cons.mp h2).1 hu'
      · rcases List.mem_append.mp hmem with hm | hm
        · exact htfresh u hu' (h5 u hm)
        · rw [List.mem_singleton] at hm
          subst hm
          exact htfresh u hu' (h4 u (List.mem_cons_self _ _))
  | case4 iter visited pages fetched url rest hguard =>
    intro h1 _ h3 _ h5 _
    rw [crawlLoop]
    simp only [hguard, dif_neg, not_false_iff]
    exact ⟨h1, h3, h5⟩

/-- Scope invariant of the crawl loop, for any property `Q` of URLs implied
by `is_valid_url`: if every queued URL and every collected page URL enjoys
`Q`, then every page URL in the final result enjoys `Q` (newly discovered
links all pass `is_valid_url` before being enqueued). -/
theorem crawlLoop_scope (env : Env) (cfg : Cfg) (Q : String → Prop)
    (hvalid : ∀ u, is_valid_url cfg.domain u = true → Q u) :
    ∀ iter visited queue pages fetched,
    (∀ u ∈ queue, Q u) → (∀ p ∈ pages, Q p.url) →
    ∀ p ∈ (crawlLoop env cfg iter visited queue pages fetched).pages, Q p.url := by
  intro iter visited queue pages fetched
  induction iter, visited, queue, pages, fetched using crawlLoop.induct env cfg with
  | case1 iter visited pages fetched =>
    intro _ hp
    rw [crawlLoop]
    exact hp
  | case2 iter visited pages fetched url rest hguard hscrape ih =>
    intro hq hp
    rw [crawlLoop]
    simp only [hguard, hscrape, dif_pos]
    exact ih (fun u hu => hq u (List.mem_cons_of_mem _ hu)) hp
  | case3 iter visited pages fetched url rest hguard p links hscrape ih =>
    intro hq hp
    rw [crawlLoop]
    simp only [hguard, hscrape, dif_pos]
    obtain ⟨hpurl, hlinks⟩ := scrape_page_some env cfg url p links hscrape
    obtain ⟨t, _, hq2, htl, _, _⟩ := mergeLinks_spec links visited rest
    rw [hq2] at ih ⊢
    apply ih
    · intro u hu
      rcases List.mem_append.mp hu with hu' | hu'
      · exact hq u (List.mem_cons_of_mem _ hu')
      · exact hvalid u (hlinks u (htl u hu'))
    · intro q hq'
      rcases List.mem_append.mp hq' with h' | h'
      · exact hp q h'
      · rw [List.mem_singleton] at h'
        subst h'
        rw [hpurl]
        exact hq url (List.mem_cons_self _ _)
  | case4 iter visited pages fetched url rest hguard =>
    intro _ hp
    rw [crawlLoop]
    simp only [hguard, dif_neg, not_false_iff]
    exact hp

/-- A fetch oracle that always fails, with no timeout (used in witnesses). -/
def envFail : Env := ⟨fun _ => none, fun _ => false, fun _ h => h⟩

/-- Claim C2: for every crawl invocation with `max_pages ≥ 1`, the returned
result satisfies `pages_count == len(pages)` and `len(pages) ≤ max_pages`. -/
theorem c2_pages_bound (env : Env) (base : String) (mp : Int) (h : 1 ≤ mp) :
    (crawl env base mp).pages_count = (crawl env base mp).pages.length ∧
    ((crawl env base mp).pages.length : Int) ≤ mp := by
  refine ⟨rfl, ?_⟩
  show ((crawlAux env base mp).pages.length : Int) ≤ mp
  unfold crawlAux
  apply crawlLoop_len
  show ((List.length ([] : List Page) : Int)) ≤ mp
  simp only [List.length_nil, Int.Nat.cast_ofNat_Int]
  omega

/-- Witness for C2 at a concrete input. -/
theorem c2_witness :
    (1 : Int) ≤ 5 ∧
    ((crawl envFail "https://x.com" 5).pages_count =
        (crawl envFail "https://x.com" 5).pages.length ∧
      ((crawl envFail "https://x.com" 5).pages.length : Int) ≤ 5) :=
  ⟨by norm_num, c2_pages_bound envFail "https://x.com" 5 (by norm_num)⟩

/-- Claim C4: within one crawl no URL appears twice in the visited set, no
URL is fetched twice, every fetched URL was recorded in the visited set,
and the visited set only grows during the loop (final visited list = the
initial one plus a fresh tail; URLs are appended exactly when enqueued, so
the visited list doubles as the enqueue log — a URL enters the pending
queue at most once). -/
theorem c4_dedup (env : Env) (base : String) (mp : Int) :
    (crawlAux env base mp).visited.Nodup ∧
    (crawlAux env base mp).fetched.Nodup ∧
    (∀ u ∈ (crawlAux env base mp).fetched, u ∈ (crawlAux env base mp).visited) ∧
    (∀ (cfg : Cfg) iter visited queue pages fetched, ∃ t,
      (crawlLoop env cfg iter visited queue pages fetched).visited = visited ++ t) := by
  have hinit := crawlLoop_dedup env (mkCfg base mp) 0
    [normalize_url (mkCfg base mp).baseUrl] [normalize_url (mkCfg base mp).baseUrl] [] []
    (List.nodup_singleton _) (List.nodup_singleton _) List.nodup_nil
    (fun u hu => hu) (fun u hu => absurd hu (List.not_mem_nil u))
    (fun u _ hu => absurd hu (List.not_mem_nil u))
  exact ⟨hinit.1, hinit.2.1, hinit.2.2, fun cfg => crawlLoop_mono env cfg⟩

/-- Claim C10: for `max_pages ≤ 0` the crawl issues no fetch at all (the
loop body never runs), returns a well-formed result with `pages_count = 0`
and no pages, and the route-level clamp `min(n, 50)` indeed only clamps
from above (it is the identity on non-positive values). -/
theorem c10_no_fetch (env : Env) (base : String) (mp : Int) (h : mp ≤ 0) :
    (crawlAux env base mp).fetched = [] ∧
    (crawl env base mp).pages_count = 0 ∧
    (crawl env base mp).pages = [] ∧
    clampMaxPages mp = mp := by
  have hmax : (mkCfg base mp).maxPages = mp := rfl
  have hng : ¬ (((List.length ([] : List Page)) : Int) < (mkCfg base mp).maxPages ∧
      env.timedOut 0 = false) := by
    rw [hmax]
    intro hc
    have h1 := hc.1
    simp only [List.length_nil, Int.Nat.cast_ofNat_Int] at h1
    omega
  have key : crawlAux env base mp =
      ⟨[], [normalize_url (mkCfg base mp).baseUrl], []⟩ := by
    unfold crawlAux
    rw [crawlLoop]
    rw [dif_neg hng]
  refine ⟨by rw [key], ?_, ?_, ?_⟩
  · show (crawlAux env base mp).pages.length = 0
    rw [key]
    rfl
  · show (crawlAux env base mp).pages = []
    rw [key]
  · unfold clampMaxPages
    omega

/-- Witness for C10 at a concrete input. -/
theorem c10_witness :
    (-3 : Int) ≤ 0 ∧
    ((crawlAux envFail "https://x.com" (-3)).fetched = [] ∧
      (crawl envFail "https://x.com" (-3)).pages_count = 0 ∧
      (crawl envFail "https://x.com" (-3)).pages = [] ∧
      clampMaxPages (-3) = -3) :=
  ⟨by norm_num, c10_no_fetch envFail "https://x.com" (-3) (by norm_num)⟩

/-- Claim C6: a failed fetch (the oracle raising, modelled as `none`)
makes `scrape_page` return no page and no links, and such a failure is
local to its URL: the loop step for a failing URL just records the URL as
fetched and continues with the rest of the frontier, with pages and visited
set unchanged.  (The loop itself is a total function — it never raises.) -/
theorem c6_failures_local :
    (∀ (env : Env) (cfg : Cfg) (u : String),
      env.fetch u = none → scrape_page env cfg u = none) ∧
    (∀ (env : Env) (cfg : Cfg) (iter : Nat) (visited rest : List String)
        (pages : List Page) (fetched : List String) (u : String),
      scrape_page env cfg u = none →
      ((pages.length : Int) < cfg.maxPages ∧ env.timedOut iter = false) →
      crawlLoop env cfg iter visited (u :: rest) pages fetched =
        crawlLoop env cfg (iter + 1) visited rest pages (fetched ++ [u])) := by
  constructor
  · intro env cfg u hfetch
    unfold scrape_page
    rw [hfetch]
  · intro env cfg iter visited rest pages fetched u hscrape hguard
    rw [crawlLoop]
    rw [dif_pos hguard]
    simp only [hscrape]

/-- Witness for C6 at a concrete input. -/
theorem c6_witness :
    scrape_page envFail (mkCfg "https://x.com" 25) "https://x.com/" = none ∧
    crawlLoop envFail (mkCfg "https://x.com" 25) 0 ["https://x.com/"]
        ["https://x.com/a"] [] [] =
      crawlLoop envFail (mkCfg "https://x.com" 25) 1 ["https://x.com/"] [] []
        ["https://x.com/a"] :=
  ⟨c6_failures_local.1 envFail _ _ rfl,
   c6_failures_local.2 envFail (mkCfg "https://x.com" 25) 0 ["https://x.com/"] []
     [] [] "https://x.com/a" (c6_failures_local.1 envFail _ _ rfl)
     ⟨by decide, rfl⟩⟩

/-- Length of a string rebuilt from characters. -/
theorem ofChars_length (l : List Char) : (ofChars l).length = l.length := rfl

/-- A `[:n]` slice never exceeds `n` characters. -/
theorem pyTake_len_le (n : Nat) (s : String) : (pyTake n s).length ≤ n := by
  show (s.data.take n).length ≤ n
  simp [List.length_take]

/-- The digest join is at least as long as its first section. -/
theorem pyJoinNl_len_ge_head (a : String) (l : List String) :
    a.length ≤ (pyJoinNl (a :: l)).length := by
  cases l with
  | nil => simp [pyJoinNl]
  | cons b t =>
    simp only [pyJoinNl, String.length_append]
    omega

/-- Claim C1 (amended): `build_ai_content` receives no maximum size and
applies no final truncation, so no size bound `≤ N` holds; what does hold
is that the digest is the empty string exactly when the result has no
pages. -/
theorem c1_amended (r : CrawlResult) : build_ai_content r = "" ↔ r.pages = [] := by
  constructor
  · intro h
    cases hp : r.pages with
    | nil => rfl
    | cons p l =>
      exfalso
      unfold build_ai_content at h
      rw [hp] at h
      change pyJoinNl (sectionsOf r) = "" at h
      have hsec : sectionsOf r = introSection r.domain r.pages ::
          (h1Sections r.pages ++ h2Sections r.pages ++ h3Sections r.pages ++
            homepageSections r.pages ++ otherPagesHeader ++
            otherPagesSections r.domain r.pages ++ structureSections r.pages) := by
        unfold sectionsOf
        simp [List.append_assoc]
      have hlen := pyJoinNl_len_ge_head (introSection r.domain r.pages)
        (h1Sections r.pages ++ h2Sections r.pages ++ h3Sections r.pages ++
          homepageSections r.pages ++ otherPagesHeader ++
          otherPagesSections r.domain r.pages ++ structureSections r.pages)
      rw [← hsec, h] at hlen
      have hpos : 0 < (introSection r.domain r.pages).length := by
        unfold introSection
        simp only [String.length_append]
        have h31 : ("# WEBSITE INTELLIGENCE REPORT: " : String).length = 31 := rfl
        omega
      have hz : ("" : String).length = 0 := rfl
      rw [hz] at hlen
      omega
  · intro h
    unfold build_ai_content
    rw [h]

/-- A crawl result with one empty page, used as the C1 counterexample. -/
def resC1 : CrawlResult :=
  { domain := "x.com", url := "https://x.com", pages_count := 1,
    pages := [{ url := "https://x.com/", title := "", meta_description := "",
                headers := [], content := "" }] }

set_option maxRecDepth 40000 in
/-- Counterexample to claim C1 as stated: the digest of a one-page result
is nonempty, so `len(digest) ≤ N` fails at `N = 0` — there is no maximum
size `N` for which the assembler's output is hard-truncated. -/
theorem c1_cex : ¬ ((build_ai_content resC1).length ≤ 0) := by decide

/-- A subsequent page's 3000-character excerpt is one of the digest's
sections. -/
theorem excerpt_mem_sections (r : CrawlResult) (p : Page) (hp : p ∈ r.pages.drop 1) :
    pyTake 3000 p.content ∈ sectionsOf r := by
  have h1 : pyTake 3000 p.content ∈ otherPageSection r.domain p := by
    unfold otherPageSection
    simp [List.mem_append]
  have h2 : otherPageSection r.domain p ∈ (r.pages.drop 1).map (otherPageSection r.domain) :=
    List.mem_map_of_mem _ hp
  have h3 : pyTake 3000 p.content ∈ otherPagesSections r.domain r.pages := by
    unfold otherPagesSections
    exact List.mem_flatten.mpr ⟨_, h2, h1⟩
  unfold sectionsOf
  simp only [List.mem_append]
  tauto

/-- Claim C7 (amended): every page after the homepage contributes a section
block to the digest, and its excerpt is the first 3000 characters of its
content — a constant per-page truncation, not a division of any remaining
budget, and with no cap on the number of excerpted pages. -/
theorem c7_amended (r : CrawlResult) (p : Page) (hp : p ∈ r.pages.drop 1) :
    pyTake 3000 p.content ∈ sectionsOf r ∧
    (pyTake 3000 p.content).length ≤ 3000 ∧
    otherPagesSections r.domain r.pages =
      ((r.pages.drop 1).map (otherPageSection r.domain)).flatten :=
  ⟨excerpt_mem_sections r p hp, pyTake_len_le _ _, rfl⟩

/-- A 4000-character page body used in the C7 counterexample. -/
def bigContentC7 : String := ofChars (List.replicate 4000 'a')

/-- The repeated tail page of the C7 counterexample. -/
def tailPageC7 : Page :=
  { url := "https://x.com/p", title := "", meta_description := "",
    headers := [], content := bigContentC7 }

/-- A result with one homepage and `k` identical subsequent pages. -/
def resC7 (k : Nat) : CrawlResult :=
  { domain := "x.com", url := "https://x.com", pages_count := k + 1,
    pages := { url := "https://x.com/", title := "", meta_description := "",
               headers := [], content := bigContentC7 } :: List.replicate k tailPageC7 }

/-- Witness for C7 at a concrete two-page result. -/
theorem c7_witness :
    tailPageC7 ∈ (resC7 1).pages.drop 1 ∧
    (pyTake 3000 tailPageC7.content ∈ sectionsOf (resC7 1) ∧
      (pyTake 3000 tailPageC7.content).length ≤ 3000 ∧
      otherPagesSections (resC7 1).domain (resC7 1).pages =
        (((resC7 1).pages.drop 1).map (otherPageSection (resC7 1).domain)).flatten) :=
  ⟨by simp [resC7], c7_amended (resC7 1) tailPageC7 (by simp [resC7])⟩

/-- Counterexample to claim C7 as stated: with 20 subsequent pages the
digest contains one excerpt block per page — 20 of them — and each excerpt
is exactly 3000 characters long (the pages carry 4000 characters), the same
excerpt length as when a single subsequent page is present.  The excerpt
length neither depends on the number of pages to include nor on any
remaining budget: the source truncates every subsequent page to the
constant `[:3000]`. -/
theorem c7_cex :
    (resC7 20).pages.drop 1 = List.replicate 20 tailPageC7 ∧
    otherPagesSections (resC7 20).domain (resC7 20).pages =
      (List.replicate 20 (otherPageSection "x.com" tailPageC7)).flatten ∧
    pyTake 3000 tailPageC7.content ∈ sectionsOf (resC7 20) ∧
    pyTake 3000 tailPageC7.content ∈ sectionsOf (resC7 1) ∧
    (pyTake 3000 tailPageC7.content).length = 3000 ∧
    tailPageC7.content.length = 4000 := by
  refine ⟨rfl, ?_, ?_, ?_, ?_, ?_⟩
  · unfold otherPagesSections
    show ((List.replicate 20 tailPageC7).map (otherPageSection "x.com")).flatten = _
    rw [List.map_replicate]
  · exact excerpt_mem_sections (resC7 20) tailPageC7 (by simp [resC7])
  · exact excerpt_mem_sections (resC7 1) tailPageC7 (by simp [resC7])
  · show ((bigContentC7.data).take 3000).length = 3000
    have : bigContentC7.data = List.replicate 4000 'a' := rfl
    rw [this, List.length_take, List.length_replicate]
    norm_num
  · show bigContentC7.data.length = 4000
    have : bigContentC7.data = List.replicate 4000 'a' := rfl
    rw [this, List.length_replicate]

/-- A deduplicated level-1 heading is emitted in the digest verbatim, as the
line `- <heading>`. -/
theorem h1_line_mem (r : CrawlResult) (h : String) (hh : h ∈ h1_unique r.pages) :
    ("- " ++ h) ∈ sectionsOf r := by
  have hne : h1_unique r.pages ≠ [] := List.ne_nil_of_mem hh
  have h1 : ("- " ++ h) ∈ h1Sections r.pages := by
    unfold h1Sections
    rw [if_pos hne]
    simp only [List.mem_append, List.mem_cons]
    have hm := List.mem_map_of_mem (fun h => "- " ++ h) hh
    tauto
  unfold sectionsOf
  simp only [List.mem_append]
  tauto

/-- A deduplicated level-2 heading is emitted in the digest verbatim. -/
theorem h2_line_mem (r : CrawlResult) (h : String) (hh : h ∈ h2_unique r.pages) :
    ("- " ++ h) ∈ sectionsOf r := by
  have hne : h2_unique r.pages ≠ [] := List.ne_nil_of_mem hh
  have h1 : ("- " ++ h) ∈ h2Sections r.pages := by
    unfold h2Sections
    rw [if_pos hne]
    simp only [List.mem_append, List.mem_cons]
    have hm := List.mem_map_of_mem (fun h => "- " ++ h) hh
    tauto
  unfold sectionsOf
  simp only [List.mem_append]
  tauto

/-- Claim C9 (amended): the digest's level-1 headings are the
first-occurrence deduplication of the headings gathered across all pages
(order-preserving: a sublist with no duplicates, containing every gathered
heading), capped at 10; level-2 headings receive the same treatment with
the larger cap 15; but each emitted heading line carries the heading
verbatim — there is no individual truncation to a fixed length. -/
theorem c9_amended (r : CrawlResult) :
    h1_unique r.pages = (pyDedup (h1_all r.pages)).take 10 ∧
    h2_unique r.pages = (pyDedup (h2_all r.pages)).take 15 ∧
    (pyDedup (h1_all r.pages)).Nodup ∧ (pyDedup (h2_all r.pages)).Nodup ∧
    (pyDedup (h1_all r.pages)).Sublist (h1_all r.pages) ∧
    (pyDedup (h2_all r.pages)).Sublist (h2_all r.pages) ∧
    (∀ x ∈ h1_all r.pages, x ∈ pyDedup (h1_all r.pages)) ∧
    (∀ x ∈ h2_all r.pages, x ∈ pyDedup (h2_all r.pages)) ∧
    (h1_unique r.pages).length ≤ 10 ∧ (h2_unique r.pages).length ≤ 15 ∧
    (∀ h ∈ h1_unique r.pages, ("- " ++ h) ∈ sectionsOf r) ∧
    (∀ h ∈ h2_unique r.pages, ("- " ++ h) ∈ sectionsOf r) := by
  refine ⟨rfl, rfl, (pyDedupAux_nodup _ []).1, (pyDedupAux_nodup _ []).1,
    pyDedupAux_sublist _ [], pyDedupAux_sublist _ [], ?_, ?_, ?_, ?_,
    fun h hh => h1_line_mem r h hh, fun h hh => h2_line_mem r h hh⟩
  · intro x hx
    rcases pyDedupAux_complete _ [] x hx with hs | ho
    · cases hs
    · exact ho
  · intro x hx
    rcases pyDedupAux_complete _ [] x hx with hs | ho
    · cases hs
    · exact ho
  · show ((pyDedup (h1_all r.pages)).take 10).length ≤ 10
    simp [List.length_take]
  · show ((pyDedup (h2_all r.pages)).take 15).length ≤ 15
    simp [List.length_take]

/-- A 500-character heading used in the C9 counterexample. -/
def bigHeadC9 : String := ofChars (List.replicate 500 'Z')

/-- A one-page result whose single `h1` heading has 500 characters. -/
def resC9 : CrawlResult :=
  { domain := "x.com", url := "https://x.com", pages_count := 1,
    pages := [{ url := "https://x.com/", title := "", meta_description := "",
                headers := [("h1", [bigHeadC9])], content := "" }] }

/-- Witness for C9 at a concrete result. -/
theorem c9_witness :
    h1_unique resC9.pages = (pyDedup (h1_all resC9.pages)).take 10 ∧
    h2_unique resC9.pages = (pyDedup (h2_all resC9.pages)).take 15 ∧
    (pyDedup (h1_all resC9.pages)).Nodup ∧ (pyDedup (h2_all resC9.pages)).Nodup ∧
    (pyDedup (h1_all resC9.pages)).Sublist (h1_all resC9.pages) ∧
    (pyDedup (h2_all resC9.pages)).Sublist (h2_all resC9.pages) ∧
    (∀ x ∈ h1_all resC9.pages, x ∈ pyDedup (h1_all resC9.pages)) ∧
    (∀ x ∈ h2_all resC9.pages, x ∈ pyDedup (h2_all resC9.pages)) ∧
    (h1_unique resC9.pages).length ≤ 10 ∧ (h2_unique resC9.pages).length ≤ 15 ∧
    (∀ h ∈ h1_unique resC9.pages, ("- " ++ h) ∈ sectionsOf resC9) ∧
    (∀ h ∈ h2_unique resC9.pages, ("- " ++ h) ∈ sectionsOf resC9) :=
  c9_amended resC9

/-- Counterexample to claim C9 as stated: a 500-character level-1 heading
appears in the digest in full (as the line `- <heading>`, 502 characters),
so the emitted headings are not individually truncated to any fixed
character length below 500 — the source emits `f"- {h}"` with no slice. -/
theorem c9_cex :
    ("- " ++ bigHeadC9) ∈ sectionsOf resC9 ∧
    ("- " ++ bigHeadC9).length = 502 ∧
    bigHeadC9.length = 500 := by
  refine ⟨?_, ?_, ?_⟩
  · apply h1_line_mem
    have hu : h1_unique resC9.pages = [bigHeadC9] := rfl
    rw [hu]
    exact List.mem_singleton.mpr rfl
  · have hb : bigHeadC9.length = 500 := by
      show (List.replicate 500 'Z').length = 500
      rw [List.length_replicate]
    rw [String.length_append, hb]
    have h2 : ("- " : String).length = 2 := rfl
    rw [h2]
  · show (List.replicate 500 'Z').length = 500
    rw [List.length_replicate]

/-- Claim C8: the headings mapping of an extracted page has only the keys
`h1`, `h2`, `h3`; a key is present exactly when the document has at least
one heading at that level, and it maps to the first 10 heading texts of
that level, each trimmed; and a successful `scrape_page` stores exactly
this mapping built from the fetched document. -/
theorem c8_headers :
    (∀ (doc : Doc) (k : String) (vs : List String),
      ((k, vs) ∈ extractHeaders doc ↔
        ∃ i, i ∈ [1, 2, 3] ∧ k = "h" ++ toString i ∧ doc.hs i ≠ [] ∧
          vs = ((doc.hs i).take 10).map pyStrip)) ∧
    (∀ (env : Env) (cfg : Cfg) (u : String) (p : Page) (links : List String),
      scrape_page env cfg u = some (p, links) →
      ∃ r, env.fetch u = some r ∧ p.headers = extractHeaders r.doc) := by
  constructor
  · intro doc k vs
    unfold extractHeaders
    constructor
    · intro hmem
      rcases List.mem_append.mp hmem with h12 | hm3
      · rcases List.mem_append.mp h12 with hm1 | hm2
        · by_cases e1 : doc.h1s = []
          · rw [if_neg (by simpa using e1)] at hm1
            cases hm1
          · rw [if_pos (by simpa using e1)] at hm1
            rw [List.mem_singleton, Prod.mk.injEq] at hm1
            exact ⟨1, by simp, by rw [hm1.1]; decide, e1, by rw [hm1.2]; rfl⟩
        · by_cases e2 : doc.h2s = []
          · rw [if_neg (by simpa using e2)] at hm2
            cases hm2
          · rw [if_pos (by simpa using e2)] at hm2
            rw [List.mem_singleton, Prod.mk.injEq] at hm2
            exact ⟨2, by simp, by rw [hm2.1]; decide, e2, by rw [hm2.2]; rfl⟩
      · by_cases e3 : doc.h3s = []
        · rw [if_neg (by simpa using e3)] at hm3
          cases hm3
        · rw [if_pos (by simpa using e3)] at hm3
          rw [List.mem_singleton, Prod.mk.injEq] at hm3
          exact ⟨3, by simp, by rw [hm3.1]; decide, e3, by rw [hm3.2]; rfl⟩
    · rintro ⟨i, hi, hk, hne, hvs⟩
      subst hk
      subst hvs
      simp only [List.mem_cons, List.not_mem_nil, or_false] at hi
      rcases hi with rfl | rfl | rfl
      · simp only [Doc.hs] at hne
        apply List.mem_append_left
        apply List.mem_append_left
        rw [if_pos (by simpa using hne)]
        exact List.mem_singleton.mpr (by rw [Prod.mk.injEq]; exact ⟨by decide, rfl⟩)
      · simp only [Doc.hs] at hne
        apply List.mem_append_left
        apply List.mem_append_right
        rw [if_pos (by simpa using hne)]
        exact List.mem_singleton.mpr (by rw [Prod.mk.injEq]; exact ⟨by decide, rfl⟩)
      · simp only [Doc.hs] at hne
        apply List.mem_append_right
        rw [if_pos (by simpa using hne)]
        exact List.mem_singleton.mpr (by rw [Prod.mk.injEq]; exact ⟨by decide, rfl⟩)
  · intro env cfg u p links h
    unfold scrape_page at h
    split at h
    · cases h
    · rename_i r hr
      split at h
      · cases h
      · simp only [Option.some.injEq, Prod.mk.injEq] at h
        exact ⟨r, hr, by rw [← h.1]⟩

/-- A concrete document with one untrimmed `h1` heading. -/
def docC8 : Doc :=
  { anchors := [], titleStr := none, metaDesc := none,
    h1s := [" A "], h2s := [], h3s := [], bodyText := "" }

/-- An environment serving `docC8` as HTML for every URL. -/
def envC8 : Env :=
  ⟨fun _ => some ⟨"text/html", docC8⟩, fun _ => false, fun _ h => h⟩

/-- The page `scrape_page` produces from `docC8`. -/
def pageC8 : Page :=
  { url := "u", title := "", meta_description := "",
    headers := [("h1", ["A"])], content := "" }

/-- Witness for C8 at a concrete scrape. -/
theorem c8_witness :
    ∃ r, envC8.fetch "u" = some r ∧ pageC8.headers = extractHeaders r.doc :=
  c8_headers.2 envC8 (mkCfg "https://x.com" 25) "u" pageC8 [] (by decide)

/-- `takeWhile` passes over a block on which the predicate holds. -/
theorem takeWhile_append_all {α : Type} (p : α → Bool) (l₁ l₂ : List α)
    (h : ∀ a ∈ l₁, p a = true) :
    (l₁ ++ l₂).takeWhile p = l₁ ++ l₂.takeWhile p := by
  induction l₁ with
  | nil => simp
  | cons a l ih =>
    simp only [List.cons_append, List.takeWhile_cons, h a (List.mem_cons_self _ _),
      if_true]
    rw [ih (fun b hb => h b (List.mem_cons_of_mem _ hb))]

/-- `takeWhile` keeps a list on which the predicate holds everywhere. -/
theorem takeWhile_all_eq {α : Type} (p : α → Bool) (l : List α)
    (h : ∀ a ∈ l, p a = true) : l.takeWhile p = l := by
  induction l with
  | nil => simp
  | cons a l ih =>
    simp only [List.takeWhile_cons, h a (List.mem_cons_self _ _), if_true]
    rw [ih (fun b hb => h b (List.mem_cons_of_mem _ hb))]

/-- Scheme splitting on a well-formed `scheme:`-prefixed URL. -/
theorem pySplitScheme_wf (sd rest : List Char) (h1 : sd ≠ [])
    (h2 : sd.headI.isAlpha = true) (h3 : sd.all schemeChar = true)
    (h4 : sd.map Char.toLower = sd) (h5 : ∀ c ∈ sd, c ≠ ':') :
    pySplitScheme (sd ++ ':' :: rest) = (sd, rest) := by
  unfold pySplitScheme
  have hpre : (sd ++ ':' :: rest).takeWhile (fun c => !(c == ':')) = sd := by
    rw [takeWhile_append_all _ sd (':' :: rest)
      (fun a ha => by simpa using h5 a ha)]
    simp [List.takeWhile_cons]
  rw [hpre]
  rw [if_pos]
  · rw [h4]
    have hsplit : sd ++ ':' :: rest = (sd ++ [':']) ++ rest := by
      rw [List.append_assoc]
      rfl
    rw [hsplit, List.drop_left' (by simp)]
  · refine ⟨?_, h1, h2, h3⟩
    simp only [List.length_append, List.length_cons]
    omega

/-- Netloc splitting after `//` on a well-formed host and path. -/
theorem pySplitNetloc_wf (n p : List Char)
    (hn : ∀ c ∈ n, netlocChar c = true)
    (hp : p = [] ∨ p.head? = some '/') :
    pySplitNetloc ('/' :: '/' :: (n ++ p)) = (n, p) := by
  have hnl : (n ++ p).takeWhile netlocChar = n := by
    rw [takeWhile_append_all _ n p hn]
    rcases hp with rfl | hp'
    · simp
    · cases p with
      | nil => simp
      | cons c t =>
        simp only [List.head?_cons, Option.some.injEq] at hp'
        subst hp'
        simp [List.takeWhile_cons, netlocChar]
  show ((n ++ p).takeWhile netlocChar,
    (n ++ p).drop ((n ++ p).takeWhile netlocChar).length) = (n, p)
  rw [hnl]
  rw [List.drop_left]

/-- Splitting at a character that does not occur. -/
theorem pySplitOn_none (d : Char) (l : List Char) (h : ∀ c ∈ l, c ≠ d) :
    pySplitOn d l = (l, []) := by
  have hbf : l.takeWhile (fun c => !(c == d)) = l :=
    takeWhile_all_eq _ l (fun a ha => by simpa using h a ha)
  show (l.takeWhile (fun c => !(c == d)),
    l.drop ((l.takeWhile (fun c => !(c == d))).length + 1)) = (l, [])
  rw [hbf]
  rw [List.drop_eq_nil_of_le (by omega)]

/-- Rebuilding a string from its own characters is the identity. -/
theorem ofChars_data (s : String) : ofChars s.data = s := rfl

/-- Parsing a well-formed `http`/`https` URL recovers its scheme, host and
path, with empty query and fragment. -/
theorem pyUrlparse_wf (sch n p : String)
    (hs : sch = "http" ∨ sch = "https")
    (hnc : ∀ c ∈ n.data, c ≠ ':' ∧ c ≠ '/' ∧ c ≠ '?' ∧ c ≠ '#')
    (hp : p.data = [] ∨ p.data.head? = some '/')
    (hpc : ∀ c ∈ p.data, c ≠ '?' ∧ c ≠ '#') :
    pyUrlparse (sch ++ "://" ++ n ++ p) = ⟨sch, n, p, "", ""⟩ := by
  have hdata : (sch ++ "://" ++ n ++ p).data =
      sch.data ++ ':' :: '/' :: '/' :: (n.data ++ p.data) := by
    simp only [String.data_append, List.append_assoc]
    rfl
  have hsch : pySplitScheme (sch.data ++ ':' :: '/' :: '/' :: (n.data ++ p.data)) =
      (sch.data, '/' :: '/' :: (n.data ++ p.data)) := by
    apply pySplitScheme_wf
    · rcases hs with rfl | rfl <;> decide
    · rcases hs with rfl | rfl <;> decide
    · rcases hs with rfl | rfl <;> decide
    · rcases hs with rfl | rfl <;> decide
    · rcases hs with rfl | rfl <;> decide
  have hnet : pySplitNetloc ('/' :: '/' :: (n.data ++ p.data)) = (n.data, p.data) := by
    apply pySplitNetloc_wf
    · intro c hc
      obtain ⟨-, h2, h3, h4⟩ := hnc c hc
      simp [netlocChar, h2, h3, h4]
    · exact hp
  have hfr : pySplitOn '#' p.data = (p.data, []) :=
    pySplitOn_none _ _ (fun c hc => (hpc c hc).2)
  have hqr : pySplitOn '?' p.data = (p.data, []) :=
    pySplitOn_none _ _ (fun c hc => (hpc c hc).1)
  show (⟨ofChars (pySplitScheme (sch ++ "://" ++ n ++ p).data).1,
      ofChars (pySplitNetloc (pySplitScheme (sch ++ "://" ++ n ++ p).data).2).1,
      ofChars (pySplitOn '?'
        (pySplitOn '#'
          (pySplitNetloc (pySplitScheme (sch ++ "://" ++ n ++ p).data).2).2).1).1,
      ofChars (pySplitOn '?'
        (pySplitOn '#'
          (pySplitNetloc (pySplitScheme (sch ++ "://" ++ n ++ p).data).2).2).1).2,
      ofChars (pySplitOn '#'
        (pySplitNetloc (pySplitScheme (sch ++ "://" ++ n ++ p).data).2).2).2⟩ :
      UrlParts) = ⟨sch, n, p, "", ""⟩
  rw [hdata, hsch, hnet, hfr, hqr]
  rfl

/-- `dropWhile` is idempotent. -/
theorem dropWhile_dropWhile {α : Type} (p : α → Bool) (l : List α) :
    (l.dropWhile p).dropWhile p = l.dropWhile p := by
  induction l with
  | nil => simp
  | cons a l ih =>
    by_cases hpa : p a = true
    · rw [List.dropWhile_cons_of_pos hpa]
      exact ih
    · rw [List.dropWhile_cons_of_neg hpa, List.dropWhile_cons_of_neg hpa]

/-- Stripping trailing slashes is idempotent. -/
theorem rstripSlashL_idem (l : List Char) :
    rstripSlashL (rstripSlashL l) = rstripSlashL l := by
  unfold rstripSlashL
  rw [List.reverse_reverse, dropWhile_dropWhile]

/-- `dropWhile` drops an initial segment. -/
theorem dropWhile_eq_drop {α : Type} (p : α → Bool) (l : List α) :
    ∃ m, m ≤ l.length ∧ l.dropWhile p = l.drop m := by
  induction l with
  | nil => exact ⟨0, by simp⟩
  | cons a l ih =>
    by_cases hpa : p a = true
    · obtain ⟨m, hm, hd⟩ := ih
      exact ⟨m + 1, by simpa using hm, by rw [List.dropWhile_cons_of_pos hpa]; simpa⟩
    · exact ⟨0, by simp, by rw [List.dropWhile_cons_of_neg hpa]; rfl⟩

/-- Stripping trailing slashes keeps an initial segment of the list. -/
theorem rstripSlashL_take (l : List Char) :
    ∃ k, k ≤ l.length ∧ rstripSlashL l = l.take k := by
  obtain ⟨m, hm, hd⟩ := dropWhile_eq_drop (fun c => decide (c = '/')) l.reverse
  refine ⟨l.length - m, by omega, ?_⟩
  unfold rstripSlashL
  rw [hd]
  rw [List.reverse_drop]
  simp

/-- Characters surviving the trailing-slash strip come from the input. -/
theorem rstripSlashL_subset (l : List Char) (c : Char) (hc : c ∈ rstripSlashL l) :
    c ∈ l := by
  obtain ⟨k, _, hk⟩ := rstripSlashL_take l
  rw [hk] at hc
  exact List.take_subset k l hc

/-- The head survives a nonempty trailing-slash strip. -/
theorem rstripSlashL_head (l : List Char) (hne : rstripSlashL l ≠ []) :
    (rstripSlashL l).head? = l.head? := by
  obtain ⟨k, _, hk⟩ := rstripSlashL_take l
  rw [hk] at hne ⊢
  cases l with
  | nil => simp at hne
  | cons a t =>
    cases k with
    | zero => simp at hne
    | succ k' => simp

/-- A list with no trailing slash is unchanged by the strip; in particular
the strip of a stripped list keeps dropping nothing. -/
theorem rstripSlashL_no_slash (l : List Char)
    (h : l.reverse.head? ≠ some '/') : rstripSlashL l = l := by
  unfold rstripSlashL
  cases hrev : l.reverse with
  | nil =>
    have : l = [] := by simpa using congrArg List.reverse hrev
    simp [this]
  | cons a t =>
    rw [hrev] at h
    have ha : ¬ ((fun x : Char => decide (x = '/')) a = true) := by
      simp only [List.head?_cons, ne_eq, Option.some.injEq] at h
      simpa using h
    rw [List.dropWhile_cons]
    rw [if_neg ha]
    rw [← hrev, List.reverse_reverse]

/-- Normalization of a well-formed URL: scheme and host are kept, the path
loses its trailing slashes (an emptied path becomes `/`), and the dropped
query/fragment are empty anyway. -/
theorem normalize_url_wf (sch n p : String)
    (hs : sch = "http" ∨ sch = "https")
    (hnc : ∀ c ∈ n.data, c ≠ ':' ∧ c ≠ '/' ∧ c ≠ '?' ∧ c ≠ '#')
    (hp : p.data = [] ∨ p.data.head? = some '/')
    (hpc : ∀ c ∈ p.data, c ≠ '?' ∧ c ≠ '#') :
    normalize_url (sch ++ "://" ++ n ++ p) =
      sch ++ "://" ++ n ++ (if pyRstripSlash p = "" then "/" else pyRstripSlash p) := by
  unfold normalize_url
  rw [pyUrlparse_wf sch n p hs hnc hp hpc]

/-- The stripped path of a well-formed path is itself well-formed: it is
empty or starts with `/`, and its characters come from the original path. -/
theorem stripped_path_wf (p : String)
    (hp : p.data = [] ∨ p.data.head? = some '/') :
    ((if pyRstripSlash p = "" then "/" else pyRstripSlash p) : String).data = [] ∨
      ((if pyRstripSlash p = "" then "/" else pyRstripSlash p) : String).data.head? =
        some '/' := by
  split
  · right
    rfl
  · rename_i hne
    right
    have hdat : (pyRstripSlash p).data = rstripSlashL p.data := rfl
    have hne' : rstripSlashL p.data ≠ [] := by
      intro hnil
      apply hne
      show ofChars (rstripSlashL p.data) = ""
      rw [hnil]
      rfl
    rw [hdat, rstripSlashL_head p.data hne']
    rcases hp with hnil | hhead
    · rw [hnil] at hne'
      simp [rstripSlashL] at hne'
    · exact hhead

/-- Characters of the stripped path come from the original path or are the
single `/`. -/
theorem stripped_path_chars (p : String) (c : Char)
    (hc : c ∈ ((if pyRstripSlash p = "" then "/" else pyRstripSlash p) : String).data) :
    c = '/' ∨ c ∈ p.data := by
  revert hc
  split
  · intro hc
    left
    simpa using hc
  · intro hc
    right
    exact rstripSlashL_subset p.data c hc

/-- Stripping the already-stripped path changes nothing (after the `or '/'`
defaulting). -/
theorem stripped_path_idem (p : String) :
    (if pyRstripSlash (if pyRstripSlash p = "" then "/" else pyRstripSlash p) = ""
      then "/" else pyRstripSlash (if pyRstripSlash p = "" then "/" else pyRstripSlash p)) =
    (if pyRstripSlash p = "" then "/" else pyRstripSlash p) := by
  by_cases h0 : pyRstripSlash p = ""
  · rw [if_pos h0]
    decide
  · rw [if_neg h0]
    have hidem : pyRstripSlash (pyRstripSlash p) = pyRstripSlash p := by
      show ofChars (rstripSlashL (pyRstripSlash p).data) = pyRstripSlash p
      have hdat : (pyRstripSlash p).data = rstripSlashL p.data := rfl
      rw [hdat, rstripSlashL_idem]
      rfl
    rw [hidem]
    rw [if_neg h0]

/-- Claim C5: URL normalization is idempotent on well-formed URLs, and two
URLs differing only by a trailing path slash normalize identically. -/
theorem c5_normalize_idem :
    (∀ u, WellFormedUrl u → normalize_url (normalize_url u) = normalize_url u) ∧
    normalize_url "https://x.com/a/" = normalize_url "https://x.com/a" := by
  constructor
  · rintro u ⟨sch, n, p, hs, hn, hnc, hp, hpc, rfl⟩
    have hnc' : ∀ c ∈ n.data, c ≠ ':' ∧ c ≠ '/' ∧ c ≠ '?' ∧ c ≠ '#' := by
      intro c hc
      obtain ⟨a, b, d, e, -⟩ := hnc c hc
      exact ⟨a, b, d, e⟩
    have hp' : p.data = [] ∨ p.data.head? = some '/' := by
      rcases hp with h | h
      · left
        rw [h]
      · right
        exact h
    have hpc' : ∀ c ∈ p.data, c ≠ '?' ∧ c ≠ '#' := by
      intro c hc
      obtain ⟨a, b, -⟩ := hpc c hc
      exact ⟨a, b⟩
    have h1 := normalize_url_wf sch n p hs hnc' hp' hpc'
    set p2 : String := if pyRstripSlash p = "" then "/" else pyRstripSlash p with hp2
    have hp2wf : p2.data = [] ∨ p2.data.head? = some '/' := stripped_path_wf p hp'
    have hpc2 : ∀ c ∈ p2.data, c ≠ '?' ∧ c ≠ '#' := by
      intro c hc
      rcases stripped_path_chars p c hc with rfl | hcp
      · exact ⟨by decide, by decide⟩
      · exact hpc' c hcp
    have h2 := normalize_url_wf sch n p2 hs hnc' hp2wf hpc2
    rw [h1, h2]
    have hidem2 := stripped_path_idem p
    rw [← hp2] at hidem2
    rw [hidem2]
  · decide

/-- Witness for C5 at a concrete well-formed URL. -/
theorem c5_witness :
    WellFormedUrl "https://x.com/a/" ∧
    normalize_url (normalize_url "https://x.com/a/") = normalize_url "https://x.com/a/" := by
  have hwf : WellFormedUrl "https://x.com/a/" :=
    ⟨"https", "x.com", "/a/", Or.inr rfl, by decide, by decide, by decide, by decide,
      by decide⟩
  exact ⟨hwf, c5_normalize_idem.1 _ hwf⟩

/-- `dropWhile` over an append: either the first block is dropped entirely,
or the second block is untouched. -/
theorem dropWhile_append {α : Type} (q : α → Bool) (l₁ l₂ : List α) :
    (l₁ ++ l₂).dropWhile q =
      if l₁.all q then l₂.dropWhile q else l₁.dropWhile q ++ l₂ := by
  induction l₁ with
  | nil => simp
  | cons a t ih =>
    by_cases hqa : q a = true
    · rw [List.cons_append, List.dropWhile_cons_of_pos hqa, ih]
      by_cases hall : t.all q = true
      · rw [if_pos hall, if_pos (by simp [List.all_cons, hqa, hall])]
      · rw [if_neg hall, if_neg (by simp [List.all_cons, hqa, hall])]
        rw [List.dropWhile_cons_of_pos hqa]
    · rw [List.cons_append, List.dropWhile_cons_of_neg hqa]
      rw [if_neg (by simp [List.all_cons, hqa])]
      rw [List.dropWhile_cons_of_neg hqa]
      rfl

/-- Stripping trailing slashes from `x ++ y` only affects `y` when `x` does
not end with a slash. -/
theorem rstripSlashL_append (x y : List Char) (hx : x ≠ [])
    (hlast : ∀ c, x.reverse.head? = some c → c ≠ '/') :
    rstripSlashL (x ++ y) = x ++ rstripSlashL y := by
  unfold rstripSlashL
  rw [List.reverse_append, dropWhile_append]
  by_cases hall : (y.reverse.all (fun c => decide (c = '/'))) = true
  · rw [if_pos hall]
    have hynil : y.reverse.dropWhile (fun c => decide (c = '/')) = [] := by
      rw [List.dropWhile_eq_nil_iff]
      intro c hc
      simpa using List.all_eq_true.mp hall c hc
    rw [hynil]
    cases hxr : x.reverse with
    | nil => exact absurd (by simpa using congrArg List.reverse hxr) hx
    | cons a t =>
      have ha : ¬ ((fun c : Char => decide (c = '/')) a = true) := by
        have := hlast a (by rw [hxr]; rfl)
        simpa using this
      rw [List.dropWhile_cons]
      rw [if_neg ha]
      rw [← hxr, List.reverse_reverse]
      simp
  · rw [if_neg hall]
    rw [List.reverse_append, List.reverse_reverse]

/-- Strings with the same characters are equal. -/
theorem str_data_inj (a b : String) (h : a.data = b.data) : a = b := by
  cases a
  cases b
  simp only at h
  rw [h]

/-- Any URL accepted by `is_valid_url` has the scraper's domain as host, or
an empty host (the validator only rejects a *nonempty* differing netloc). -/
theorem is_valid_url_host (domain u : String) (h : is_valid_url domain u = true) :
    (pyUrlparse u).netloc = domain ∨ (pyUrlparse u).netloc = "" := by
  unfold is_valid_url at h
  dsimp only at h
  split at h
  · exact absurd h (by simp)
  · rename_i hcond
    by_cases hz : (pyUrlparse u).netloc = ""
    · exact Or.inr hz
    · left
      by_contra hne
      exact hcond ⟨hz, hne⟩

/-- The normalized, slash-stripped seed of a well-formed base URL keeps the
base URL's host. -/
theorem seed_host_wf (base : String) (hwf : WellFormedUrl base) :
    host (normalize_url (pyRstripSlash base)) = (pyUrlparse base).netloc := by
  obtain ⟨sch, n, p, hs, hn, hnc, hp, hpc, rfl⟩ := hwf
  have hnc' : ∀ c ∈ n.data, c ≠ ':' ∧ c ≠ '/' ∧ c ≠ '?' ∧ c ≠ '#' := by
    intro c hc
    obtain ⟨a, b, d, e, -⟩ := hnc c hc
    exact ⟨a, b, d, e⟩
  have hp' : p.data = [] ∨ p.data.head? = some '/' := by
    rcases hp with h | h
    · left
      rw [h]
    · right
      exact h
  have hpc' : ∀ c ∈ p.data, c ≠ '?' ∧ c ≠ '#' := by
    intro c hc
    obtain ⟨a, b, -⟩ := hpc c hc
    exact ⟨a, b⟩
  have hbase := pyUrlparse_wf sch n p hs hnc' hp' hpc'
  have hnd : n.data ≠ [] := by
    intro hnil
    exact hn (str_data_inj n "" hnil)
  have hx : (sch ++ "://" ++ n).data ≠ [] := by
    intro hnil
    have hlen := congrArg List.length hnil
    rw [String.data_append, String.data_append] at hlen
    simp only [List.length_append, List.length_nil, List.length_cons] at hlen
    omega
  have hlast : ∀ c, ((sch ++ "://" ++ n).data).reverse.head? = some c → c ≠ '/' := by
    intro c hc
    have hd : (sch ++ "://" ++ n).data = (sch ++ "://").data ++ n.data :=
      String.data_append _ _
    rw [hd, List.reverse_append] at hc
    cases hrev : n.data.reverse with
    | nil =>
      exact absurd (by simpa using congrArg List.reverse hrev) hnd
    | cons a t =>
      rw [hrev] at hc
      simp only [List.cons_append, List.head?_cons, Option.some.injEq] at hc
      subst hc
      have ha : a ∈ n.data := by
        have : a ∈ n.data.reverse := by
          rw [hrev]
          exact List.mem_cons_self _ _
        simpa using this
      exact (hnc' a ha).2.1
  have hsplit : pyRstripSlash (sch ++ "://" ++ n ++ p) =
      sch ++ "://" ++ n ++ pyRstripSlash p := by
    apply str_data_inj
    show rstripSlashL (sch ++ "://" ++ n ++ p).data = _
    have hd1 : (sch ++ "://" ++ n ++ p).data = (sch ++ "://" ++ n).data ++ p.data :=
      String.data_append _ _
    have hd2 : (sch ++ "://" ++ n ++ pyRstripSlash p).data =
        (sch ++ "://" ++ n).data ++ rstripSlashL p.data :=
      String.data_append _ _
    rw [hd1, rstripSlashL_append _ _ hx hlast, hd2]
  rw [hsplit]
  have hp2 : (pyRstripSlash p).data = [] ∨ (pyRstripSlash p).data.head? = some '/' := by
    by_cases hz : rstripSlashL p.data = []
    · left
      exact hz
    · right
      show (rstripSlashL p.data).head? = some '/'
      rw [rstripSlashL_head p.data hz]
      rcases hp' with hnil | hhead
      · rw [hnil] at hz
        simp [rstripSlashL] at hz
      · exact hhead
  have hpc2 : ∀ c ∈ (pyRstripSlash p).data, c ≠ '?' ∧ c ≠ '#' := by
    intro c hc
    exact hpc' c (rstripSlashL_subset p.data c hc)
  have hnorm := normalize_url_wf sch n (pyRstripSlash p) hs hnc' hp2 hpc2
  rw [hnorm]
  have hp3 := stripped_path_wf (pyRstripSlash p) hp2
  have hpc3 : ∀ c ∈ ((if pyRstripSlash (pyRstripSlash p) = "" then "/"
      else pyRstripSlash (pyRstripSlash p)) : String).data, c ≠ '?' ∧ c ≠ '#' := by
    intro c hc
    rcases stripped_path_chars (pyRstripSlash p) c hc with rfl | hcp
    · exact ⟨by decide, by decide⟩
    · exact hpc2 c hcp
  have hparse3 := pyUrlparse_wf sch n _ hs hnc' hp3 hpc3
  unfold host
  rw [hparse3, hbase]

/-- Claim C3 (amended): for a crawl whose seed URL is well-formed, the host
of every page's URL equals the target domain *or is empty*: the validator
passes URLs with an empty netloc, so domain equality cannot be guaranteed
in general (see the counterexample), only this disjunction can. -/
theorem c3_amended (env : Env) (base : String) (mp : Int) (hwf : WellFormedUrl base) :
    ∀ pg ∈ (crawl env base mp).pages,
      host pg.url = (crawl env base mp).domain ∨ host pg.url = "" := by
  intro pg hpg
  have hdom : (crawl env base mp).domain = (pyUrlparse base).netloc := rfl
  rw [hdom]
  have hQ := crawlLoop_scope env (mkCfg base mp)
    (fun u => host u = (pyUrlparse base).netloc ∨ host u = "")
    (fun u hu => by
      have hv := is_valid_url_host (mkCfg base mp).domain u hu
      exact hv)
    0 [normalize_url (mkCfg base mp).baseUrl] [normalize_url (mkCfg base mp).baseUrl]
    [] []
    (fun u hu => by
      rw [List.mem_singleton] at hu
      rw [hu]
      left
      exact seed_host_wf base hwf)
    (fun q hq => absurd hq (List.not_mem_nil _))
  exact hQ pg hpg

/-- Witness for C3 (amended) at a concrete well-formed seed. -/
theorem c3_witness :
    WellFormedUrl "https://x.com" ∧
    (∀ pg ∈ (crawl envFail "https://x.com" 5).pages,
      host pg.url = (crawl envFail "https://x.com" 5).domain ∨ host pg.url = "") := by
  have hwf : WellFormedUrl "https://x.com" :=
    ⟨"https", "x.com", "", Or.inr rfl, by decide, by decide, Or.inl rfl, by decide,
      by decide⟩
  exact ⟨hwf, c3_amended envFail "https://x.com" 5 hwf⟩

/-- Seed document of the C3 counterexample: one anchor `//`. -/
def docSeedC3 : Doc :=
  { anchors := ["//"], titleStr := none, metaDesc := none,
    h1s := [], h2s := [], h3s := [], bodyText := "" }

/-- Linkless document of the C3 counterexample. -/
def docEmptyC3 : Doc :=
  { anchors := [], titleStr := none, metaDesc := none,
    h1s := [], h2s := [], h3s := [], bodyText := "" }

/-- A transport serving the seed document at the seed URL and an empty HTML
document at the hostless URL `https:///` (the validator lets that URL into
the frontier; whether a host-less fetch succeeds is up to the transport,
which is an external collaborator). -/
def envC3 : Env :=
  ⟨fun u =>
    if u = "https://x.com/" then some ⟨"text/html", docSeedC3⟩
    else if u = "https:///" then some ⟨"text/html", docEmptyC3⟩
    else none,
   fun _ => false, fun _ h => h⟩

/-- Page scraped from the seed in the C3 counterexample. -/
def pgSeedC3 : Page :=
  { url := "https://x.com/", title := "", meta_description := "", headers := [],
    content := "" }

/-- Page scraped from the hostless URL in the C3 counterexample. -/
def pgEmptyC3 : Page :=
  { url := "https:///", title := "", meta_description := "", headers := [],
    content := "" }

set_option maxRecDepth 40000 in
/-- The crawl of the C3 counterexample, stepped to its final state: the
seed page is scraped, the anchor `//` becomes the hostless frontier entry
`https:///` (accepted by the validator), and that URL is then fetched and
yields a page. -/
theorem crawlAux_c3 : crawlAux envC3 "https://x.com" 25 =
    ⟨[pgSeedC3, pgEmptyC3], ["https://x.com/", "https:///"],
      ["https://x.com/", "https:///"]⟩ := by
  have hseed : normalize_url (mkCfg "https://x.com" 25).baseUrl = "https://x.com/" := by
    decide
  have h1 : scrape_page envC3 (mkCfg "https://x.com" 25) "https://x.com/" =
      some (pgSeedC3, ["https:///"]) := by decide
  have h2 : scrape_page envC3 (mkCfg "https://x.com" 25) "https:///" =
      some (pgEmptyC3, []) := by decide
  have hmerge : mergeLinks ["https://x.com/"] [] ["https:///"] =
      (["https://x.com/", "https:///"], ["https:///"]) := by decide
  unfold crawlAux
  show crawlLoop envC3 (mkCfg "https://x.com" 25) 0
    [normalize_url (mkCfg "https://x.com" 25).baseUrl]
    [normalize_url (mkCfg "https://x.com" 25).baseUrl] [] [] = _
  rw [hseed]
  rw [crawlLoop]
  rw [dif_pos ⟨by decide, rfl⟩]
  rw [h1]
  show crawlLoop envC3 (mkCfg "https://x.com" 25) 1
    (mergeLinks ["https://x.com/"] [] ["https:///"]).1
    (mergeLinks ["https://x.com/"] [] ["https:///"]).2
    ([] ++ [pgSeedC3]) ([] ++ ["https://x.com/"]) = _
  rw [hmerge]
  show crawlLoop envC3 (mkCfg "https://x.com" 25) 1 ["https://x.com/", "https:///"]
    ["https:///"] [pgSeedC3] ["https://x.com/"] = _
  rw [crawlLoop]
  rw [dif_pos ⟨by decide, rfl⟩]
  rw [h2]
  show crawlLoop envC3 (mkCfg "https://x.com" 25) 2 ["https://x.com/", "https:///"] []
    [pgSeedC3, pgEmptyC3] ["https://x.com/", "https:///"] = _
  rw [crawlLoop]

/-- Counterexample to claim C3 as stated: crawling `https://x.com` over a
transport that answers the hostless URL `https:///` produces a page whose
URL host (empty) differs from the target domain `x.com`.  The anchor `//`
absolutizes to `https://`, normalizes to `https:///`, and passes
`is_valid_url` because the domain check only rejects a *nonempty* differing
netloc. -/
theorem c3_cex :
    ∃ pg ∈ (crawl envC3 "https://x.com" 25).pages,
      host pg.url ≠ (crawl envC3 "https://x.com" 25).domain := by
  refine ⟨pgEmptyC3, ?_, ?_⟩
  · show pgEmptyC3 ∈ (crawlAux envC3 "https://x.com" 25).pages
    rw [crawlAux_c3]
    simp
  · show host pgEmptyC3.url ≠ (mkCfg "https://x.com" 25).domain
    decide
